import Mathlib

/-!
Shallow embedding of the Sudoku move-validation engine from `src/main.rs`.

Modelling conventions:
* Rust `u8` digits are modelled as `Nat` (all comparisons in the source are
  `< 10` / `== v`, where overflow never matters).
* `HashMap<PositionId, V>` is modelled as the total function
  `PositionId → Option V` (`none` = key absent).  This is faithful because
  `PositionId` is a product of two 3-valued enums, so the key space has
  exactly 9 inhabitants in the Rust code as well.  Iteration over a map
  (`map.iter()` / `map.values()`, whose order a Rust `HashMap` leaves
  unspecified) is modelled as iteration over the canonical enumeration
  `allPositions`, restricted to present keys; every statement proved below
  about an iteration result is insensitive to that order (set membership,
  multiplicity of a fixed element, emptiness).
* `&mut self` methods become state-passing functions returning the new
  state paired with the Rust return value.
-/

/-- Rust `enum Row { Upper = 1, Center = 2, Bottom = 3 }`. -/
inductive Row where
  | Upper
  | Center
  | Bottom
deriving DecidableEq, Repr, Fintype

/-- The fixed enumeration `Row::all()`. -/
def Row.all : List Row := [.Upper, .Center, .Bottom]

/-- Rust `enum Column { Left = 1, Center = 2, Right = 3 }`. -/
inductive Column where
  | Left
  | Center
  | Right
deriving DecidableEq, Repr, Fintype

/-- The fixed enumeration `Column::all()`. -/
def Column.all : List Column := [.Left, .Center, .Right]

/-- Rust `struct PositionId { row: Row, column: Column }`. -/
structure PositionId where
  row : Row
  column : Column
deriving DecidableEq, Repr, Fintype

/-- The canonical enumeration of the 9 possible `PositionId` values
(row-major); used to model iteration over a `HashMap` keyed by
`PositionId`. -/
def allPositions : List PositionId :=
  Row.all.flatMap (fun r => Column.all.map (fun c => ⟨r, c⟩))

/-- The effect of `HashMap::insert` on the function model of a map. -/
def mapInsert {V : Type} (m : PositionId → Option V) (k : PositionId) (v : V) :
    PositionId → Option V :=
  fun p => if p = k then some v else m p

/-- The number of present entries of `map : HashMap<PositionId, Option<V>>`
whose stored value is `Some v` — the count accumulated in `value_counts`
inside `keys_with_duplicate_values`. -/
def valueCount (m : PositionId → Option (Option Nat)) (v : Nat) : Nat :=
  (allPositions.filter (fun k => m k = some (some v))).length

/-- The function `keys_with_duplicate_values` (instantiated, as in the program, at
`K = PositionId`, `V = u8`): the keys whose stored value is `Some v` for a
`v` occurring in more than one entry. -/
def keys_with_duplicate_values (m : PositionId → Option (Option Nat)) :
    List PositionId :=
  allPositions.filter (fun k =>
    match m k with
    | some (some v) => decide (1 < valueCount m v)
    | some none => false
    | none => false)

/-- Rust `struct SubGrid { cells: HashMap<PositionId, Option<u8>> }`. -/
structure SubGrid where
  cells : PositionId → Option (Option Nat)

/-- Rust `struct SubGridMove { cell: PositionId, value: u8 }`. -/
structure SubGridMove where
  cell : PositionId
  value : Nat
deriving DecidableEq, Repr

/-- Rust `enum SubgridMoveResult { Ok, Invalid(Vec<PositionId>) }`. -/
inductive SubgridMoveResult where
  | Ok
  | Invalid (cells : List PositionId)
deriving DecidableEq, Repr

/-- Constructor `SubGrid::new`: inserts `None` at every `PositionId` built from
`Row::all() × Column::all()`, starting from the empty map. -/
def SubGrid.new : SubGrid :=
  ⟨Row.all.foldl
    (fun acc r =>
      Column.all.foldl (fun acc2 c => mapInsert acc2 ⟨r, c⟩ none) acc)
    (fun _ => none)⟩

/-- Derived `SubGrid::default` (derived `Default`): the cell map is the empty
`HashMap`, not the 9-key domain built by `new`. -/
def SubGrid.defaultGrid : SubGrid := ⟨fun _ => none⟩

/-- Method `SubGrid::update_value`: if `value < 10`, overwrite the entry when the
key is present (a silent no-op when absent) and return `Ok(())`; otherwise
return `Err("Invalid cell value")` and leave the map untouched. -/
def SubGrid.update_value (g : SubGrid) (key : PositionId) (value : Nat) :
    SubGrid × Except String Unit :=
  if value < 10 then
    (match g.cells key with
     | some _ => ⟨mapInsert g.cells key (some value)⟩
     | none => g,
     Except.ok ())
  else
    (g, Except.error "Invalid cell value")

/-- Method `SubGrid::get_value`: `self.cells.get(&key).copied()?` — `none` when
the key is absent, otherwise the stored `Option<u8>`. -/
def SubGrid.get_value (g : SubGrid) (key : PositionId) : Option Nat :=
  match g.cells key with
  | some v => v
  | none => none

/-- Method `SubGrid::get_duplicates`: `Some` of the non-empty duplicate key list,
`None` when there are no duplicates. -/
def SubGrid.get_duplicates (g : SubGrid) : Option (List PositionId) :=
  let duplicates := keys_with_duplicate_values g.cells
  if duplicates.length > 0 then some duplicates else none

/-- Method `SubGrid::make_move`: when the addressed cell key is present, call
`update_value` — whose `Result` the source discards — and collect the
post-state duplicates; return `Invalid` with them when non-empty, `Ok`
otherwise. -/
def SubGrid.make_move (g : SubGrid) (m : SubGridMove) :
    SubGrid × SubgridMoveResult :=
  match g.cells m.cell with
  | some _ =>
      let g2 := (g.update_value m.cell m.value).1
      let invalid_cells :=
        match g2.get_duplicates with
        | some duplicates => duplicates
        | none => []
      (g2,
       if invalid_cells.length > 0 then .Invalid invalid_cells else .Ok)
  | none => (g, .Ok)

/-- Rust `struct CellCoordinate { sub_grid: PositionId, cell: PositionId }`. -/
structure CellCoordinate where
  sub_grid : PositionId
  cell : PositionId
deriving DecidableEq, Repr, Fintype

/-- Rust `struct SudokuBoard { sub_grids: HashMap<PositionId, SubGrid> }`. -/
structure SudokuBoard where
  sub_grids : PositionId → Option SubGrid

/-- Rust `struct SudokuMove { cell_coordinate: CellCoordinate, value: u8 }`. -/
structure SudokuMove where
  cell_coordinate : CellCoordinate
  value : Nat
deriving DecidableEq, Repr

/-- Rust `enum SudokuMoveResult { Ok, Invalid(Vec<CellCoordinate>) }`. -/
inductive SudokuMoveResult where
  | Ok
  | Invalid (cells : List CellCoordinate)
deriving DecidableEq, Repr

/-- Constructor `SudokuBoard::new`: inserts a fresh `SubGrid::new` at every block
address from `Row::all() × Column::all()`. -/
def SudokuBoard.new : SudokuBoard :=
  ⟨Row.all.foldl
    (fun acc r =>
      Column.all.foldl (fun acc2 c => mapInsert acc2 ⟨r, c⟩ SubGrid.new) acc)
    (fun _ => none)⟩

/-- Derived `SudokuBoard::default` (derived `Default`): the block map is the empty
`HashMap`. -/
def SudokuBoard.defaultBoard : SudokuBoard := ⟨fun _ => none⟩

/-- Method `SudokuBoard::update_value`: delegate to the addressed sub-grid when
present (its returned `Result` is discarded by the source), no-op when
absent. -/
def SudokuBoard.update_value (b : SudokuBoard) (coordinate : CellCoordinate)
    (value : Nat) : SudokuBoard :=
  match b.sub_grids coordinate.sub_grid with
  | some subgrid_entry =>
      ⟨mapInsert b.sub_grids coordinate.sub_grid
        (subgrid_entry.update_value coordinate.cell value).1⟩
  | none => b

/-- Method `SudokuBoard::get_value`: look up the addressed sub-grid (`?` returns
`none` when absent) and read the cell from it. -/
def SudokuBoard.get_value (b : SudokuBoard) (coordinate : CellCoordinate) :
    Option Nat :=
  match b.sub_grids coordinate.sub_grid with
  | some sub_grid => sub_grid.get_value coordinate.cell
  | none => none

/-- Method `SudokuBoard::get_row_duplicates`: fix the move's block-row-band and
local row-band; scan the three blocks in that block-row and, in each, the
three cells in that local row; record every cell whose stored value equals
the move's value.  `Some` of the list when non-empty, `None` otherwise. -/
def SudokuBoard.get_row_duplicates (b : SudokuBoard) (sudoku_move : SudokuMove) :
    Option (List CellCoordinate) :=
  let row_duplicates :=
    Column.all.flatMap (fun sub_grid_col =>
      let sub_grid_pos : PositionId :=
        ⟨sudoku_move.cell_coordinate.sub_grid.row, sub_grid_col⟩
      match b.sub_grids sub_grid_pos with
      | some subgrid_entry =>
          Column.all.filterMap (fun cell_col =>
            let cell_pos : PositionId :=
              ⟨sudoku_move.cell_coordinate.cell.row, cell_col⟩
            match subgrid_entry.get_value cell_pos with
            | some value =>
                if value = sudoku_move.value then
                  some ⟨sub_grid_pos, cell_pos⟩
                else none
            | none => none)
      | none => [])
  if row_duplicates.length > 0 then some row_duplicates else none

/-- Method `SudokuBoard::get_column_duplicates`: symmetric to
`get_row_duplicates`, holding the column-bands fixed and scanning the
row-bands. -/
def SudokuBoard.get_column_duplicates (b : SudokuBoard) (sudoku_move : SudokuMove) :
    Option (List CellCoordinate) :=
  let col_duplicates :=
    Row.all.flatMap (fun sub_grid_row =>
      let sub_grid_pos : PositionId :=
        ⟨sub_grid_row, sudoku_move.cell_coordinate.sub_grid.column⟩
      match b.sub_grids sub_grid_pos with
      | some subgrid_entry =>
          Row.all.filterMap (fun cell_row =>
            let cell_pos : PositionId :=
              ⟨cell_row, sudoku_move.cell_coordinate.cell.column⟩
            match subgrid_entry.get_value cell_pos with
            | some value =>
                if value = sudoku_move.value then
                  some ⟨sub_grid_pos, cell_pos⟩
                else none
            | none => none)
      | none => [])
  if col_duplicates.length > 0 then some col_duplicates else none

/-- Method `SudokuBoard::make_move`: apply the move inside the addressed sub-grid
(when present), translating its block-local conflicts to full coordinates;
then extend with the row and column duplicates of the now-mutated board;
`Invalid` with the concatenation when non-empty, `Ok` otherwise. -/
def SudokuBoard.make_move (b : SudokuBoard) (sudoku_move : SudokuMove) :
    SudokuBoard × SudokuMoveResult :=
  let step :=
    match b.sub_grids sudoku_move.cell_coordinate.sub_grid with
    | some subgrid_entry =>
        let moved :=
          subgrid_entry.make_move
            ⟨sudoku_move.cell_coordinate.cell, sudoku_move.value⟩
        (SudokuBoard.mk
          (mapInsert b.sub_grids sudoku_move.cell_coordinate.sub_grid moved.1),
         match moved.2 with
         | .Invalid invalid_cells =>
             invalid_cells.map (fun invalid_cell =>
               (⟨sudoku_move.cell_coordinate.sub_grid, invalid_cell⟩ :
                 CellCoordinate))
         | .Ok => [])
    | none => (b, [])
  let b1 := step.1
  let invalid_cells_coordinates :=
    step.2
      ++ (match b1.get_row_duplicates sudoku_move with
          | some row_duplicates => row_duplicates
          | none => [])
      ++ (match b1.get_column_duplicates sudoku_move with
          | some col_duplicates => col_duplicates
          | none => [])
  (b1,
   if invalid_cells_coordinates.length > 0 then
     .Invalid invalid_cells_coordinates
   else .Ok)

/-- Rust `struct SudokuApp { board, move_history, nr_mistakes }` (the rendering
fields of the real struct are presentation-layer state outside the engine;
the mistake counter is modelled as `Nat`, see `SudokuApp.submit`). -/
structure SudokuApp where
  board : SudokuBoard
  move_history : List SudokuMove
  nr_mistakes : Nat

/-- Constructor `SudokuApp::new`. -/
def SudokuApp.new : SudokuApp := ⟨SudokuBoard.new, [], 0⟩

/-- Modelled from the spec: the session layer's `submit` operation (§4.4)
is not implemented in the source (`SudokuApp` only declares the
`board` / `move_history` / `nr_mistakes` fields and `new`): apply the move
to the board (always), append the move to history in submission order, and
increment the mistake counter by 1 exactly when the result was Rejected. -/
def SudokuApp.submit (app : SudokuApp) (m : SudokuMove) :
    SudokuApp × SudokuMoveResult :=
  let moved := app.board.make_move m
  (⟨moved.1, app.move_history ++ [m],
    match moved.2 with
    | .Invalid _ => app.nr_mistakes + 1
    | .Ok => app.nr_mistakes⟩,
   moved.2)

/-- Submit a whole list of moves in order through `SudokuApp.submit`. -/
def SudokuApp.submitAll (app : SudokuApp) : List SudokuMove → SudokuApp
  | [] => app
  | m :: ms => ((app.submit m).1).submitAll ms

/-- The number of submissions of `ms`, starting from session state `app`,
whose result is Rejected (`Invalid`). -/
def SudokuApp.rejectedCount (app : SudokuApp) : List SudokuMove → Nat
  | [] => 0
  | m :: ms =>
      (match (app.submit m).2 with
       | .Invalid _ => 1
       | .Ok => 0)
        + ((app.submit m).1).rejectedCount ms

/-- A mutating operation on a `SudokuBoard` (the two `&mut self` methods
reachable from the engine's interface). -/
inductive BoardOp where
  | update (coordinate : CellCoordinate) (value : Nat)
  | move (m : SudokuMove)

/-- Apply one `BoardOp`. -/
def SudokuBoard.applyOp (b : SudokuBoard) : BoardOp → SudokuBoard
  | .update coordinate value => b.update_value coordinate value
  | .move m => (b.make_move m).1

/-- Apply a sequence of `BoardOp`s in order. -/
def SudokuBoard.applyOps (b : SudokuBoard) (ops : List BoardOp) : SudokuBoard :=
  ops.foldl SudokuBoard.applyOp b

/-- A mutating operation on a `SubGrid`. -/
inductive SubGridOp where
  | update (key : PositionId) (value : Nat)
  | move (m : SubGridMove)

/-- Apply one `SubGridOp`. -/
def SubGrid.applyOp (g : SubGrid) : SubGridOp → SubGrid
  | .update key value => (g.update_value key value).1
  | .move m => (g.make_move m).1

/-- Apply a sequence of `SubGridOp`s in order. -/
def SubGrid.applyOps (g : SubGrid) (ops : List SubGridOp) : SubGrid :=
  ops.foldl SubGrid.applyOp g

/-- A `SubGrid` whose cell map holds exactly the 9 fixed keys (since
`PositionId` has exactly 9 inhabitants, this says the key set is full). -/
def SubGrid.hasFixedKeys (g : SubGrid) : Prop :=
  ∀ p : PositionId, (g.cells p).isSome

/-- A `SudokuBoard` whose block map holds exactly the 9 fixed block
addresses, each mapped to a `SubGrid` with the 9 fixed cell keys. -/
def SudokuBoard.wellFormed (b : SudokuBoard) : Prop :=
  ∀ p : PositionId, ∃ g : SubGrid, b.sub_grids p = some g ∧ g.hasFixedKeys

/-- Flatten the `Option`-wrapped duplicate lists the source returns
(`None` = no duplicates = empty list). -/
def optList {α : Type} : Option (List α) → List α
  | some l => l
  | none => []

/-- Spec-side description of a row conflict: `p` lies in the same global
row as the move's cell (same block-row-band, same local row-band) and
stores the move's digit. -/
def SudokuBoard.rowConflict (b : SudokuBoard) (m : SudokuMove)
    (p : CellCoordinate) : Prop :=
  p.sub_grid.row = m.cell_coordinate.sub_grid.row ∧
    p.cell.row = m.cell_coordinate.cell.row ∧
    b.get_value p = some m.value

/-- Spec-side description of a column conflict: `p` lies in the same
global column as the move's cell and stores the move's digit. -/
def SudokuBoard.colConflict (b : SudokuBoard) (m : SudokuMove)
    (p : CellCoordinate) : Prop :=
  p.sub_grid.column = m.cell_coordinate.sub_grid.column ∧
    p.cell.column = m.cell_coordinate.cell.column ∧
    b.get_value p = some m.value

/-- How many cells of the block at address `sg` store the digit `v`. -/
def SudokuBoard.blockValueCount (b : SudokuBoard) (sg : PositionId)
    (v : Nat) : Nat :=
  match b.sub_grids sg with
  | some g => valueCount g.cells v
  | none => 0

/-- Spec-side description of a block-local conflict: `p` lies in the
move's own block and stores a digit carried by more than one cell of that
block. -/
def SudokuBoard.blockConflict (b : SudokuBoard) (m : SudokuMove)
    (p : CellCoordinate) : Prop :=
  p.sub_grid = m.cell_coordinate.sub_grid ∧
    ∃ v : Nat, b.get_value p = some v ∧ 1 < b.blockValueCount p.sub_grid v

/-- The block-local conflict coordinates collected by the first step of
`SudokuBoard::make_move`: the sub-grid's `Invalid` payload, translated to
full coordinates with the move's own block address (empty when the
sub-grid is absent or returned `Ok`). -/
def SudokuBoard.blockConfList (b : SudokuBoard) (m : SudokuMove) :
    List CellCoordinate :=
  match b.sub_grids m.cell_coordinate.sub_grid with
  | some subgrid_entry =>
      match (subgrid_entry.make_move ⟨m.cell_coordinate.cell, m.value⟩).2 with
      | .Invalid invalid_cells =>
          invalid_cells.map (fun invalid_cell =>
            (⟨m.cell_coordinate.sub_grid, invalid_cell⟩ : CellCoordinate))
      | .Ok => []
  | none => []

/-- The full conflict list accumulated by `SudokuBoard::make_move`, in
accumulation order: block-local conflicts, then the row duplicates and the
column duplicates of the post-move board. -/
def SudokuBoard.conflictList (b : SudokuBoard) (m : SudokuMove) :
    List CellCoordinate :=
  b.blockConfList m
    ++ optList (((b.make_move m).1).get_row_duplicates m)
    ++ optList (((b.make_move m).1).get_column_duplicates m)

/-- Local address A of the spec's block-local duplicate scenario. -/
def posA : PositionId := ⟨.Upper, .Left⟩

/-- Local address B of the spec's block-local duplicate scenario. -/
def posB : PositionId := ⟨.Upper, .Center⟩

/-- Local address C of the spec's block-local duplicate scenario. -/
def posC : PositionId := ⟨.Upper, .Right⟩

/-- Local address D of the spec's block-local duplicate scenario. -/
def posD : PositionId := ⟨.Center, .Left⟩

/-- The block of the spec's scenario: A=1, B=1, C=3, D=3, all other cells
empty. -/
def blockABCD : SubGrid :=
  ((((SubGrid.new.update_value posA 1).1.update_value posB 1).1.update_value
      posC 3).1.update_value posD 3).1

/-- The cell at block (Upper, Left), local position (Upper, Left). -/
def coordUL : CellCoordinate := ⟨⟨.Upper, .Left⟩, ⟨.Upper, .Left⟩⟩

/-- Concrete scenario move 1: digit 5 at `coordUL` (in range, Rejected on
an empty board because the played cell matches itself). -/
def scMove1 : SudokuMove := ⟨coordUL, 5⟩

/-- Concrete scenario move 2: digit 10 at block (Upper, Center) — out of
range, hence Accepted by the code after the discarded range failure. -/
def scMove2 : SudokuMove := ⟨⟨⟨.Upper, .Center⟩, ⟨.Upper, .Left⟩⟩, 10⟩

/-- Concrete scenario move 3: digit 7 at block (Center, Left) (in range,
Rejected). -/
def scMove3 : SudokuMove := ⟨⟨⟨.Center, .Left⟩, ⟨.Center, .Center⟩⟩, 7⟩

/-- An out-of-range move: digit 10 at `coordUL`. -/
def mvOutOfRange : SudokuMove := ⟨coordUL, 10⟩

/-! ### Basic lemmas about the map model and the sub-grid operations -/

/-- Every `PositionId` occurs in the canonical enumeration. -/
theorem mem_allPositions : ∀ p : PositionId, p ∈ allPositions := by decide

/-- Every `Column` occurs in `Column::all()`. -/
theorem mem_Column_all : ∀ c : Column, c ∈ Column.all := by decide

/-- Every `Row` occurs in `Row::all()`. -/
theorem mem_Row_all : ∀ r : Row, r ∈ Row.all := by decide

@[simp]
theorem mapInsert_apply {V : Type} (m : PositionId → Option V) (k : PositionId)
    (v : V) (p : PositionId) :
    mapInsert m k v p = if p = k then some v else m p := rfl

/-- Collapsing the source's "wrap a non-empty list in `Some`" pattern. -/
theorem optList_ite_some {α : Type} (l : List α) :
    optList (if l.length > 0 then some l else none) = l := by
  cases l with
  | nil => rfl
  | cons a as => simp [optList]

/-- Reading a cell yields `some v` exactly when the key is present and
stores `Some v`. -/
theorem get_value_eq_some_iff (g : SubGrid) (key : PositionId) (v : Nat) :
    g.get_value key = some v ↔ g.cells key = some (some v) := by
  cases h : g.cells key with
  | none => simp [SubGrid.get_value, h]
  | some w => cases w <;> simp [SubGrid.get_value, h]

/-- Membership in `keys_with_duplicate_values`: present keys whose stored
digit occurs in more than one entry. -/
theorem mem_keys_with_duplicate_values (m : PositionId → Option (Option Nat))
    (p : PositionId) :
    p ∈ keys_with_duplicate_values m ↔
      ∃ v, m p = some (some v) ∧ 1 < valueCount m v := by
  unfold keys_with_duplicate_values
  rw [List.mem_filter]
  cases h : m p with
  | none => simp [h]
  | some w =>
      cases w with
      | none => simp [h]
      | some v => simp [h, mem_allPositions p]

/-- Membership in the (flattened) result of `SubGrid::get_duplicates`. -/
theorem mem_get_duplicates (g : SubGrid) (p : PositionId) :
    p ∈ optList g.get_duplicates ↔
      ∃ v, g.cells p = some (some v) ∧ 1 < valueCount g.cells v := by
  rw [show g.get_duplicates =
        (if (keys_with_duplicate_values g.cells).length > 0 then
          some (keys_with_duplicate_values g.cells) else none) from rfl,
      optList_ite_some]
  exact mem_keys_with_duplicate_values g.cells p

/-- An out-of-range digit leaves the sub-grid untouched. -/
theorem update_value_fst_of_ge (g : SubGrid) (key : PositionId) (value : Nat)
    (h : 10 ≤ value) : (g.update_value key value).1 = g := by
  unfold SubGrid.update_value
  rw [if_neg (by omega)]

/-- The returned `Result` of `update_value` depends only on the range
check. -/
theorem update_value_snd (g : SubGrid) (key : PositionId) (value : Nat) :
    (g.update_value key value).2 =
      if value < 10 then Except.ok () else Except.error "Invalid cell value" := by
  unfold SubGrid.update_value
  split <;> rfl

/-- An in-range digit written at a present key overwrites that entry. -/
theorem update_value_fst_of_lt (g : SubGrid) (key : PositionId) (value : Nat)
    (h : value < 10) (hk : (g.cells key).isSome) :
    (g.update_value key value).1 = ⟨mapInsert g.cells key (some value)⟩ := by
  obtain ⟨w, hcell⟩ := Option.isSome_iff_exists.mp hk
  unfold SubGrid.update_value
  rw [if_pos h]
  simp only [hcell]

/-- The `update_value` write never adds or removes a key. -/
theorem update_value_cells_isSome (g : SubGrid) (key : PositionId)
    (value : Nat) (p : PositionId) :
    (((g.update_value key value).1).cells p).isSome = (g.cells p).isSome := by
  unfold SubGrid.update_value
  split
  · cases hcell : g.cells key with
    | none => simp
    | some w =>
        simp only [mapInsert_apply]
        split
        · next heq => rw [heq, hcell]; rfl
        · rfl
  · rfl

/-- The state component of `SubGrid::make_move` is the `update_value`
state when the key is present, the unchanged grid otherwise. -/
theorem subgrid_make_move_fst (g : SubGrid) (m : SubGridMove) :
    (g.make_move m).1 =
      match g.cells m.cell with
      | some _ => (g.update_value m.cell m.value).1
      | none => g := by
  unfold SubGrid.make_move
  cases h : g.cells m.cell <;> simp

/-- The result component of `SubGrid::make_move` at a present key:
`Invalid` with the post-state duplicate keys when they exist, `Ok`
otherwise. -/
theorem subgrid_make_move_snd (g : SubGrid) (m : SubGridMove)
    (hk : (g.cells m.cell).isSome) :
    (g.make_move m).2 =
      (if (keys_with_duplicate_values
            ((g.update_value m.cell m.value).1).cells).length > 0 then
        SubgridMoveResult.Invalid
          (keys_with_duplicate_values ((g.update_value m.cell m.value).1).cells)
      else .Ok) := by
  obtain ⟨w, hcell⟩ := Option.isSome_iff_exists.mp hk
  unfold SubGrid.make_move
  rw [hcell]
  simp only [SubGrid.get_duplicates]
  cases hL : keys_with_duplicate_values ((g.update_value m.cell m.value).1).cells with
  | nil => simp
  | cons a as => simp

/-! ### Characterizing the row and column duplicate scans -/

/-- Membership in the (flattened) result of `get_row_duplicates`: exactly
the cells of the same global row whose stored value equals the move's
digit.  Note that nothing excludes the move's own cell. -/
theorem mem_row_duplicates (b : SudokuBoard) (m : SudokuMove)
    (p : CellCoordinate) :
    p ∈ optList (b.get_row_duplicates m) ↔ b.rowConflict m p := by
  simp only [SudokuBoard.get_row_duplicates]
  rw [optList_ite_some, List.mem_flatMap]
  constructor
  · rintro ⟨c, -, hpc⟩
    cases hsg : b.sub_grids ⟨m.cell_coordinate.sub_grid.row, c⟩ with
    | none => rw [hsg] at hpc; simp at hpc
    | some subgrid_entry =>
        rw [hsg] at hpc
        simp only [List.mem_filterMap] at hpc
        obtain ⟨cc, -, hf⟩ := hpc
        cases hv : subgrid_entry.get_value ⟨m.cell_coordinate.cell.row, cc⟩ with
        | none => rw [hv] at hf; simp at hf
        | some value =>
            simp only [hv] at hf
            by_cases hveq : value = m.value
            · rw [if_pos hveq] at hf
              obtain rfl := Option.some_inj.mp hf
              refine ⟨rfl, rfl, ?_⟩
              simp only [SudokuBoard.get_value, hsg]
              rw [← hveq]
              exact hv
            · rw [if_neg hveq] at hf; simp at hf
  · rintro ⟨h1, h2, h3⟩
    refine ⟨p.sub_grid.column, mem_Column_all _, ?_⟩
    have hsgeq :
        (⟨m.cell_coordinate.sub_grid.row, p.sub_grid.column⟩ : PositionId) =
          p.sub_grid := by
      rw [← h1]
    rw [hsgeq]
    cases hsg : b.sub_grids p.sub_grid with
    | none => simp [SudokuBoard.get_value, hsg] at h3
    | some subgrid_entry =>
        simp only [List.mem_filterMap]
        refine ⟨p.cell.column, mem_Column_all _, ?_⟩
        have hceq :
            (⟨m.cell_coordinate.cell.row, p.cell.column⟩ : PositionId) =
              p.cell := by
          rw [← h2]
        simp only [SudokuBoard.get_value, hsg] at h3
        rw [hceq]
        simp only [h3, if_true]

/-- Membership in the (flattened) result of `get_column_duplicates`:
exactly the cells of the same global column whose stored value equals the
move's digit. -/
theorem mem_column_duplicates (b : SudokuBoard) (m : SudokuMove)
    (p : CellCoordinate) :
    p ∈ optList (b.get_column_duplicates m) ↔ b.colConflict m p := by
  simp only [SudokuBoard.get_column_duplicates]
  rw [optList_ite_some, List.mem_flatMap]
  constructor
  · rintro ⟨r, -, hpr⟩
    cases hsg : b.sub_grids ⟨r, m.cell_coordinate.sub_grid.column⟩ with
    | none => rw [hsg] at hpr; simp at hpr
    | some subgrid_entry =>
        rw [hsg] at hpr
        simp only [List.mem_filterMap] at hpr
        obtain ⟨rr, -, hf⟩ := hpr
        cases hv : subgrid_entry.get_value ⟨rr, m.cell_coordinate.cell.column⟩ with
        | none => rw [hv] at hf; simp at hf
        | some value =>
            simp only [hv] at hf
            by_cases hveq : value = m.value
            · rw [if_pos hveq] at hf
              obtain rfl := Option.some_inj.mp hf
              refine ⟨rfl, rfl, ?_⟩
              simp only [SudokuBoard.get_value, hsg]
              rw [← hveq]
              exact hv
            · rw [if_neg hveq] at hf; simp at hf
  · rintro ⟨h1, h2, h3⟩
    refine ⟨p.sub_grid.row, mem_Row_all _, ?_⟩
    have hsgeq :
        (⟨p.sub_grid.row, m.cell_coordinate.sub_grid.column⟩ : PositionId) =
          p.sub_grid := by
      rw [← h1]
    rw [hsgeq]
    cases hsg : b.sub_grids p.sub_grid with
    | none => simp [SudokuBoard.get_value, hsg] at h3
    | some subgrid_entry =>
        simp only [List.mem_filterMap]
        refine ⟨p.cell.row, mem_Row_all _, ?_⟩
        have hceq :
            (⟨p.cell.row, m.cell_coordinate.cell.column⟩ : PositionId) =
              p.cell := by
          rw [← h2]
        simp only [SudokuBoard.get_value, hsg] at h3
        rw [hceq]
        simp only [h3, if_true]

/-! ### Unfolding `SudokuBoard::make_move` -/

/-- The post-move board: the addressed sub-grid (when present) is replaced
by the result of its own `make_move`; an absent sub-grid leaves the board
unchanged. -/
theorem board_make_move_fst (b : SudokuBoard) (m : SudokuMove) :
    (b.make_move m).1 =
      match b.sub_grids m.cell_coordinate.sub_grid with
      | some subgrid_entry =>
          SudokuBoard.mk (mapInsert b.sub_grids m.cell_coordinate.sub_grid
            (subgrid_entry.make_move ⟨m.cell_coordinate.cell, m.value⟩).1)
      | none => b := by
  unfold SudokuBoard.make_move
  cases h : b.sub_grids m.cell_coordinate.sub_grid <;> rfl

/-- The returned `SudokuMoveResult` is `Invalid` with the accumulated
conflict list exactly when that list is non-empty. -/
theorem board_make_move_snd (b : SudokuBoard) (m : SudokuMove) :
    (b.make_move m).2 =
      if (b.conflictList m).length > 0 then
        SudokuMoveResult.Invalid (b.conflictList m)
      else SudokuMoveResult.Ok := by
  unfold SudokuBoard.conflictList SudokuBoard.blockConfList
  rw [board_make_move_fst]
  simp only [SudokuBoard.make_move]
  cases h : b.sub_grids m.cell_coordinate.sub_grid with
  | none =>
      simp only [h]
      cases hrow : b.get_row_duplicates m <;>
        cases hcol : b.get_column_duplicates m <;>
          simp [optList]
  | some subgrid_entry =>
      simp only [h]
      cases hres : (subgrid_entry.make_move ⟨m.cell_coordinate.cell, m.value⟩).2 <;>
        cases hrow : (SudokuBoard.mk (mapInsert b.sub_grids
            m.cell_coordinate.sub_grid
            (subgrid_entry.make_move
              ⟨m.cell_coordinate.cell, m.value⟩).1)).get_row_duplicates m <;>
          cases hcol : (SudokuBoard.mk (mapInsert b.sub_grids
              m.cell_coordinate.sub_grid
              (subgrid_entry.make_move
                ⟨m.cell_coordinate.cell, m.value⟩).1)).get_column_duplicates m <;>
            simp [optList, hres, hrow, hcol]

/-- The move is Accepted exactly when the accumulated conflict list is
empty. -/
theorem board_make_move_Ok_iff (b : SudokuBoard) (m : SudokuMove) :
    (b.make_move m).2 = SudokuMoveResult.Ok ↔ b.conflictList m = [] := by
  rw [board_make_move_snd]
  cases hL : b.conflictList m with
  | nil => simp
  | cons a as => simp

/-- A Rejected move carries exactly the accumulated conflict list. -/
theorem board_make_move_Invalid_eq (b : SudokuBoard) (m : SudokuMove)
    (l : List CellCoordinate)
    (h : (b.make_move m).2 = SudokuMoveResult.Invalid l) :
    l = b.conflictList m := by
  rw [board_make_move_snd] at h
  cases hL : b.conflictList m with
  | nil => rw [hL] at h; simp at h
  | cons a as =>
      rw [hL] at h
      simp at h
      exact h.symm

/-- Reading any cell of the block at the inserted address goes through
the inserted sub-grid. -/
theorem board_get_value_mk_insert_self (s : PositionId → Option SubGrid)
    (sg : PositionId) (g : SubGrid) (p : CellCoordinate)
    (hp : p.sub_grid = sg) :
    (SudokuBoard.mk (mapInsert s sg g)).get_value p = g.get_value p.cell := by
  simp [SudokuBoard.get_value, mapInsert_apply, hp]

/-- Counting a digit in the block at the inserted address counts inside
the inserted sub-grid. -/
theorem blockValueCount_mk_insert_self (s : PositionId → Option SubGrid)
    (sg : PositionId) (g : SubGrid) (v : Nat) :
    (SudokuBoard.mk (mapInsert s sg g)).blockValueCount sg v =
      valueCount g.cells v := by
  simp [SudokuBoard.blockValueCount, mapInsert_apply]

/-- On a well-formed board, membership in the translated block-local
conflict list coincides with the spec-side `blockConflict` predicate
evaluated on the post-move board. -/
theorem mem_blockConfList (b : SudokuBoard) (m : SudokuMove)
    (hb : b.wellFormed) (p : CellCoordinate) :
    p ∈ b.blockConfList m ↔ ((b.make_move m).1).blockConflict m p := by
  obtain ⟨g, hg, hgk⟩ := hb m.cell_coordinate.sub_grid
  have hk : (g.cells m.cell_coordinate.cell).isSome := hgk _
  obtain ⟨w, hcell⟩ := Option.isSome_iff_exists.mp hk
  have hg2 : (g.make_move ⟨m.cell_coordinate.cell, m.value⟩).1 =
      (g.update_value m.cell_coordinate.cell m.value).1 := by
    rw [subgrid_make_move_fst]
    simp only [hcell]
  have hfst : (b.make_move m).1 =
      SudokuBoard.mk (mapInsert b.sub_grids m.cell_coordinate.sub_grid
        (g.update_value m.cell_coordinate.cell m.value).1) := by
    rw [board_make_move_fst]
    simp only [hg, hg2]
  have hLHS : p ∈ b.blockConfList m ↔
      p.sub_grid = m.cell_coordinate.sub_grid ∧
        p.cell ∈ keys_with_duplicate_values
          ((g.update_value m.cell_coordinate.cell m.value).1).cells := by
    unfold SudokuBoard.blockConfList
    simp only [hg]
    rw [subgrid_make_move_snd g _ hk]
    simp only [hg2]
    cases hL : keys_with_duplicate_values
        ((g.update_value m.cell_coordinate.cell m.value).1).cells with
    | nil => simp
    | cons a as =>
        rw [if_pos (show (a :: as).length > 0 by simp)]
        simp only [List.mem_map]
        constructor
        · rintro ⟨q, hq, rfl⟩
          exact ⟨rfl, hq⟩
        · rintro ⟨hsgp, hmem⟩
          refine ⟨p.cell, hmem, ?_⟩
          rw [← hsgp]
  rw [hLHS, hfst]
  unfold SudokuBoard.blockConflict
  constructor
  · rintro ⟨hsgp, hmem⟩
    refine ⟨hsgp, ?_⟩
    rw [mem_keys_with_duplicate_values] at hmem
    obtain ⟨v, hv, hcount⟩ := hmem
    refine ⟨v, ?_, ?_⟩
    · rw [board_get_value_mk_insert_self _ _ _ _ hsgp, get_value_eq_some_iff]
      exact hv
    · rw [hsgp, blockValueCount_mk_insert_self]
      exact hcount
  · rintro ⟨hsgp, v, hv, hcount⟩
    refine ⟨hsgp, ?_⟩
    rw [mem_keys_with_duplicate_values]
    rw [board_get_value_mk_insert_self _ _ _ _ hsgp, get_value_eq_some_iff] at hv
    rw [hsgp, blockValueCount_mk_insert_self] at hcount
    exact ⟨v, hv, hcount⟩

/-- On a well-formed board, membership in the full accumulated conflict
list is the (non-deduplicated) union of the three spec-side conflict
predicates, all evaluated on the post-move board. -/
theorem mem_conflictList (b : SudokuBoard) (m : SudokuMove)
    (hb : b.wellFormed) (p : CellCoordinate) :
    p ∈ b.conflictList m ↔
      (((b.make_move m).1).blockConflict m p ∨
        ((b.make_move m).1).rowConflict m p ∨
        ((b.make_move m).1).colConflict m p) := by
  unfold SudokuBoard.conflictList
  simp only [List.mem_append]
  rw [mem_blockConfList b m hb, mem_row_duplicates, mem_column_duplicates,
    or_assoc]

/-! ### Constructor lemmas and domain preservation -/

/-- `SubGrid::new` holds all 9 keys, each mapped to an empty cell. -/
theorem new_cells : ∀ p : PositionId, SubGrid.new.cells p = some none := by
  decide

/-- `SudokuBoard::new` holds all 9 block addresses, each with a fresh
sub-grid. -/
theorem new_sub_grids :
    ∀ p : PositionId, SudokuBoard.new.sub_grids p = some SubGrid.new := by
  intro p
  cases p with
  | mk r c => cases r <;> cases c <;> rfl

/-- The fresh sub-grid has its full fixed key domain. -/
theorem new_hasFixedKeys : SubGrid.new.hasFixedKeys := by
  intro p
  rw [new_cells p]
  rfl

/-- The fresh board is well-formed. -/
theorem new_wellFormed : SudokuBoard.new.wellFormed := by
  intro p
  exact ⟨SubGrid.new, new_sub_grids p, new_hasFixedKeys⟩

/-- `update_value` preserves the sub-grid's key domain. -/
theorem hasFixedKeys_update_value (g : SubGrid) (key : PositionId)
    (value : Nat) (h : g.hasFixedKeys) :
    ((g.update_value key value).1).hasFixedKeys := by
  intro p
  rw [update_value_cells_isSome]
  exact h p

/-- `SubGrid::make_move` preserves the sub-grid's key domain. -/
theorem hasFixedKeys_make_move (g : SubGrid) (m : SubGridMove)
    (h : g.hasFixedKeys) : ((g.make_move m).1).hasFixedKeys := by
  rw [subgrid_make_move_fst]
  cases hcell : g.cells m.cell with
  | none => exact h
  | some w => exact hasFixedKeys_update_value g m.cell m.value h

/-- `SudokuBoard::update_value` preserves well-formedness. -/
theorem wellFormed_update_value (b : SudokuBoard) (c : CellCoordinate)
    (v : Nat) (hb : b.wellFormed) : (b.update_value c v).wellFormed := by
  unfold SudokuBoard.update_value
  cases hsg : b.sub_grids c.sub_grid with
  | none => exact hb
  | some subgrid_entry =>
      intro p
      simp only [mapInsert_apply]
      by_cases hp : p = c.sub_grid
      · subst hp
        rw [if_pos rfl]
        obtain ⟨g, hg, hgk⟩ := hb c.sub_grid
        rw [hsg] at hg
        obtain rfl := Option.some_inj.mp hg
        exact ⟨_, rfl, hasFixedKeys_update_value _ _ _ hgk⟩
      · rw [if_neg hp]
        exact hb p

/-- `SudokuBoard::make_move` preserves well-formedness. -/
theorem wellFormed_make_move (b : SudokuBoard) (m : SudokuMove)
    (hb : b.wellFormed) : ((b.make_move m).1).wellFormed := by
  rw [board_make_move_fst]
  cases hsg : b.sub_grids m.cell_coordinate.sub_grid with
  | none => exact hb
  | some subgrid_entry =>
      intro p
      simp only [mapInsert_apply]
      by_cases hp : p = m.cell_coordinate.sub_grid
      · subst hp
        rw [if_pos rfl]
        obtain ⟨g, hg, hgk⟩ := hb m.cell_coordinate.sub_grid
        rw [hsg] at hg
        obtain rfl := Option.some_inj.mp hg
        exact ⟨_, rfl, hasFixedKeys_make_move _ _ hgk⟩
      · rw [if_neg hp]
        exact hb p

/-- Well-formedness is preserved by any sequence of board operations. -/
theorem wellFormed_applyOps (ops : List BoardOp) :
    ∀ b : SudokuBoard, b.wellFormed → (b.applyOps ops).wellFormed := by
  induction ops with
  | nil => exact fun b hb => hb
  | cons op ops ih =>
      intro b hb
      refine ih _ ?_
      cases op with
      | update c v => exact wellFormed_update_value b c v hb
      | move m => exact wellFormed_make_move b m hb

/-- The fixed key domain is preserved by any sequence of sub-grid
operations. -/
theorem hasFixedKeys_applyOps (ops : List SubGridOp) :
    ∀ g : SubGrid, g.hasFixedKeys → (g.applyOps ops).hasFixedKeys := by
  induction ops with
  | nil => exact fun g hg => hg
  | cons op ops ih =>
      intro g hg
      refine ih _ ?_
      cases op with
      | update key v => exact hasFixedKeys_update_value g key v hg
      | move m => exact hasFixedKeys_make_move g m hg

/-- Write/read round trip through `make_move` on a well-formed board. -/
theorem make_move_get_value_self (b : SudokuBoard) (m : SudokuMove)
    (hb : b.wellFormed) (hv : m.value < 10) :
    ((b.make_move m).1).get_value m.cell_coordinate = some m.value := by
  obtain ⟨g, hg, hgk⟩ := hb m.cell_coordinate.sub_grid
  have hk : (g.cells m.cell_coordinate.cell).isSome := hgk _
  obtain ⟨w, hcell⟩ := Option.isSome_iff_exists.mp hk
  have hg2 : (g.make_move ⟨m.cell_coordinate.cell, m.value⟩).1 =
      (g.update_value m.cell_coordinate.cell m.value).1 := by
    rw [subgrid_make_move_fst]
    simp only [hcell]
  have hfst : (b.make_move m).1 =
      SudokuBoard.mk (mapInsert b.sub_grids m.cell_coordinate.sub_grid
        (g.update_value m.cell_coordinate.cell m.value).1) := by
    rw [board_make_move_fst]
    simp only [hg, hg2]
  rw [hfst, board_get_value_mk_insert_self _ _ _ _ rfl,
    update_value_fst_of_lt g _ _ hv hk, get_value_eq_some_iff]
  simp [mapInsert_apply]

/-! ### Claim theorems -/

/-- C8: a freshly constructed board (`SudokuBoard::new`) has all 81 cells
empty — `get_value` returns `none` for every `CellCoordinate`. -/
theorem new_board_all_empty :
    ∀ c : CellCoordinate, SudokuBoard.new.get_value c = none := by
  intro c
  simp only [SudokuBoard.get_value, new_sub_grids, SubGrid.get_value,
    new_cells]

/-- C6: on a block holding the addressed key (as every constructor-built
block does), `update_value` fails with the `InvalidValue` error exactly
for digits outside 0–9 (`>= 10`); on that failure the block — hence the
addressed cell — is unchanged, and for digits 0–9 the digit is stored and
read back. -/
theorem update_value_range_contract (g : SubGrid) (key : PositionId)
    (value : Nat) (hk : (g.cells key).isSome) :
    ((g.update_value key value).2 = Except.error "Invalid cell value" ↔
        10 ≤ value)
    ∧ (10 ≤ value → (g.update_value key value).1 = g)
    ∧ (value < 10 →
        ((g.update_value key value).1).get_value key = some value) := by
  refine ⟨?_, fun h => update_value_fst_of_ge g key value h, fun h => ?_⟩
  · rw [update_value_snd]
    by_cases h : value < 10
    · rw [if_pos h]
      simp
      omega
    · rw [if_neg h]
      simp
      omega
  · rw [update_value_fst_of_lt g key value h hk, get_value_eq_some_iff]
    simp [mapInsert_apply]

/-- Witness for C6's contract: the fresh block, key A, digit 7. -/
theorem update_value_range_contract_witness :
    (SubGrid.new.cells posA).isSome ∧
      (((SubGrid.new.update_value posA 7).2 =
            Except.error "Invalid cell value" ↔ 10 ≤ 7)
        ∧ (10 ≤ 7 → (SubGrid.new.update_value posA 7).1 = SubGrid.new)
        ∧ (7 < 10 →
            ((SubGrid.new.update_value posA 7).1).get_value posA = some 7)) :=
  ⟨by decide, update_value_range_contract SubGrid.new posA 7 (by decide)⟩

/-- C5: `get_duplicates` returns exactly the positions whose stored value
belongs to a value-group of size greater than 1 (empty cells ignored); on
the spec's block A=1, B=1, C=3, D=3 it returns exactly {A, B, C, D} —
both full groups, no singletons. -/
theorem get_duplicates_group_union :
    (∀ (g : SubGrid) (p : PositionId),
        p ∈ optList g.get_duplicates ↔
          ∃ v, g.cells p = some (some v) ∧ 1 < valueCount g.cells v)
    ∧ (∀ p : PositionId,
        p ∈ optList blockABCD.get_duplicates ↔
          (p = posA ∨ p = posB ∨ p = posC ∨ p = posD)) := by
  refine ⟨fun g p => mem_get_duplicates g p, ?_⟩
  decide

/-- C9: starting from the constructors, any sequence of operations
(`update_value`, `make_move`) preserves the fixed 9-key domains at both
levels: the board always maps all 9 block addresses to sub-grids with all
9 cell keys, and a block evolved on its own always holds its 9 keys. -/
theorem fixed_key_domains_invariant :
    (∀ ops : List BoardOp, (SudokuBoard.new.applyOps ops).wellFormed)
    ∧ (∀ ops : List SubGridOp, (SubGrid.new.applyOps ops).hasFixedKeys) :=
  ⟨fun ops => wellFormed_applyOps ops SudokuBoard.new new_wellFormed,
   fun ops => hasFixedKeys_applyOps ops SubGrid.new new_hasFixedKeys⟩

/-- C7: writing an in-range digit via `make_move` and then reading the
same coordinate returns that digit, on any well-formed board (in
particular any board reachable from `new`), whatever the move result
was. -/
theorem write_read_round_trip (b : SudokuBoard) (m : SudokuMove)
    (hb : b.wellFormed) (hv : m.value < 10) :
    ((b.make_move m).1).get_value m.cell_coordinate = some m.value :=
  make_move_get_value_self b m hb hv

/-- Witness for C7: the round trip at digit 5 on the fresh board. -/
theorem write_read_round_trip_witness :
    SudokuBoard.new.wellFormed ∧ scMove1.value < 10 ∧
      ((SudokuBoard.new.make_move scMove1).1).get_value
          scMove1.cell_coordinate = some scMove1.value :=
  ⟨new_wellFormed, by decide,
   write_read_round_trip SudokuBoard.new scMove1 new_wellFormed (by decide)⟩

/-- C3: the failing input for the InvalidValue propagation requirement —
on the fresh board, the out-of-range digit 10 at `coordUL` makes
`make_move` return `Ok` (Accepted) instead of propagating the range
failure (which `SubGrid::make_move` discards), while the digit is indeed
not stored. -/
theorem out_of_range_move_returns_ok :
    (SudokuBoard.new.make_move mvOutOfRange).2 = SudokuMoveResult.Ok
    ∧ ((SudokuBoard.new.make_move mvOutOfRange).1).get_value coordUL =
        none := by
  decide

/-- C10: a `Default`-constructed board or sub-grid has an empty key
mapping rather than the fixed 9-key domain: every read returns `none`,
and `make_move` on the default board returns `Ok` (Accepted) for every
move while writing nothing. -/
theorem default_masquerades_as_accepted :
    (∀ p : PositionId, SubGrid.defaultGrid.cells p = none)
    ∧ (∀ c : CellCoordinate, SudokuBoard.defaultBoard.get_value c = none)
    ∧ (∀ m : SudokuMove,
        (SudokuBoard.defaultBoard.make_move m).2 = SudokuMoveResult.Ok
        ∧ ∀ c : CellCoordinate,
            ((SudokuBoard.defaultBoard.make_move m).1).get_value c = none) := by
  refine ⟨fun p => rfl, fun c => rfl, fun m => ⟨?_, fun c => ?_⟩⟩
  · rfl
  · rfl

/-- C1 (amended): the (flattened) result of `get_row_duplicates` is
exactly the set of cells in the same global row whose stored value equals
the played digit — with nothing excluding the played cell, which is always
a member once an in-range digit has been written by `make_move` on a
well-formed board; `get_column_duplicates` is symmetric. -/
theorem row_column_duplicates_include_played_cell
    (b : SudokuBoard) (m : SudokuMove) (p : CellCoordinate) :
    (p ∈ optList (b.get_row_duplicates m) ↔ b.rowConflict m p)
    ∧ (p ∈ optList (b.get_column_duplicates m) ↔ b.colConflict m p)
    ∧ (b.wellFormed → m.value < 10 →
        m.cell_coordinate ∈
            optList (((b.make_move m).1).get_row_duplicates m)
          ∧ m.cell_coordinate ∈
            optList (((b.make_move m).1).get_column_duplicates m)) := by
  refine ⟨mem_row_duplicates b m p, mem_column_duplicates b m p,
    fun hb hv => ⟨?_, ?_⟩⟩
  · rw [mem_row_duplicates]
    exact ⟨rfl, rfl, make_move_get_value_self b m hb hv⟩
  · rw [mem_column_duplicates]
    exact ⟨rfl, rfl, make_move_get_value_self b m hb hv⟩

/-- C1 counterexample: on the fresh board, playing 5 at `coordUL` and then
computing that move's row duplicates (exactly as `make_move` does, after
the digit has been written) yields a set containing the played cell
itself. -/
theorem row_duplicates_played_cell_member :
    scMove1.cell_coordinate ∈
      optList (((SudokuBoard.new.make_move scMove1).1).get_row_duplicates
        scMove1) := by
  decide

/-- Witness for C1's conditional part: the fresh board and move 3. -/
theorem row_column_duplicates_include_played_cell_witness :
    SudokuBoard.new.wellFormed ∧ scMove3.value < 10 ∧
      (scMove3.cell_coordinate ∈
          optList (((SudokuBoard.new.make_move scMove3).1).get_row_duplicates
            scMove3)
        ∧ scMove3.cell_coordinate ∈
          optList (((SudokuBoard.new.make_move
            scMove3).1).get_column_duplicates scMove3)) :=
  ⟨new_wellFormed, by decide,
   (row_column_duplicates_include_played_cell SudokuBoard.new scMove3
      scMove3.cell_coordinate).2.2 new_wellFormed (by decide)⟩

/-- C2 (amended): on a well-formed board, `make_move` returns Accepted
exactly when no cell is in block, row, or column conflict on the post-move
board, and a rejection carries a list whose members are exactly the union
of those three conflict sets — but the list is the raw concatenation of
the three scans, not deduplicated (see the counterexample). -/
theorem make_move_conflict_union (b : SudokuBoard) (m : SudokuMove)
    (hb : b.wellFormed) :
    ((b.make_move m).2 = SudokuMoveResult.Ok ↔
        ∀ p : CellCoordinate,
          ¬(((b.make_move m).1).blockConflict m p ∨
            ((b.make_move m).1).rowConflict m p ∨
            ((b.make_move m).1).colConflict m p))
    ∧ (∀ l : List CellCoordinate,
        (b.make_move m).2 = SudokuMoveResult.Invalid l →
          ∀ p : CellCoordinate,
            (p ∈ l ↔
              (((b.make_move m).1).blockConflict m p ∨
                ((b.make_move m).1).rowConflict m p ∨
                ((b.make_move m).1).colConflict m p))) := by
  constructor
  · rw [board_make_move_Ok_iff]
    constructor
    · intro hnil p
      rw [← mem_conflictList b m hb p, hnil]
      simp
    · intro hno
      rw [List.eq_nil_iff_forall_not_mem]
      intro p hp
      exact hno p ((mem_conflictList b m hb p).mp hp)
  · intro l hl p
    rw [board_make_move_Invalid_eq b m l hl]
    exact mem_conflictList b m hb p

/-- C2 counterexample: on the fresh board, the move 5 at `coordUL` is
rejected with the conflict list `[coordUL, coordUL]` — the same coordinate
appears twice (once from the row scan, once from the column scan), so the
returned union is not deduplicated and the claimed "exactly once" fails. -/
theorem make_move_union_not_deduplicated :
    (SudokuBoard.new.make_move scMove1).2 =
      SudokuMoveResult.Invalid
        [scMove1.cell_coordinate, scMove1.cell_coordinate] := by
  decide

/-- Witness for C2's characterization: the fresh board and move 2. -/
theorem make_move_conflict_union_witness :
    SudokuBoard.new.wellFormed ∧
      (((SudokuBoard.new.make_move scMove2).2 = SudokuMoveResult.Ok ↔
          ∀ p : CellCoordinate,
            ¬(((SudokuBoard.new.make_move scMove2).1).blockConflict scMove2 p ∨
              ((SudokuBoard.new.make_move scMove2).1).rowConflict scMove2 p ∨
              ((SudokuBoard.new.make_move scMove2).1).colConflict scMove2 p))
        ∧ (∀ l : List CellCoordinate,
            (SudokuBoard.new.make_move scMove2).2 =
                SudokuMoveResult.Invalid l →
              ∀ p : CellCoordinate,
                (p ∈ l ↔
                  (((SudokuBoard.new.make_move scMove2).1).blockConflict
                      scMove2 p ∨
                    ((SudokuBoard.new.make_move scMove2).1).rowConflict
                      scMove2 p ∨
                    ((SudokuBoard.new.make_move scMove2).1).colConflict
                      scMove2 p)))) :=
  ⟨new_wellFormed,
   make_move_conflict_union SudokuBoard.new scMove2 new_wellFormed⟩

/-- C4: the session layer (`submit` modelled from the spec, see
`SudokuApp.submit`) appends one history entry per submission in
submission order and increments the mistake counter exactly once per
Rejected submission; concretely, for Rejected/Accepted/Rejected the
mistake count is 2 and the history is the three moves in order. -/
theorem session_history_and_mistakes :
    (∀ (app : SudokuApp) (ms : List SudokuMove),
        (app.submitAll ms).move_history = app.move_history ++ ms
        ∧ (app.submitAll ms).nr_mistakes =
            app.nr_mistakes + app.rejectedCount ms)
    ∧ ((SudokuApp.new.submit scMove1).2 ≠ SudokuMoveResult.Ok
        ∧ (((SudokuApp.new.submit scMove1).1).submit scMove2).2 =
            SudokuMoveResult.Ok
        ∧ (((((SudokuApp.new.submit scMove1).1).submit scMove2).1).submit
            scMove3).2 ≠ SudokuMoveResult.Ok
        ∧ (SudokuApp.new.submitAll [scMove1, scMove2, scMove3]).nr_mistakes
            = 2
        ∧ (SudokuApp.new.submitAll [scMove1, scMove2, scMove3]).move_history
            = [scMove1, scMove2, scMove3]) := by
  constructor
  · intro app ms
    induction ms generalizing app with
    | nil => simp [SudokuApp.submitAll, SudokuApp.rejectedCount]
    | cons m ms ih =>
        have h1 := ih ((app.submit m).1)
        simp only [SudokuApp.submitAll]
        constructor
        · rw [h1.1]
          show (app.move_history ++ [m]) ++ ms = app.move_history ++ m :: ms
          simp
        · rw [h1.2]
          cases hres : (app.board.make_move m).2 with
          | Ok =>
              simp only [SudokuApp.submit, SudokuApp.rejectedCount, hres]
              omega
          | Invalid l =>
              simp only [SudokuApp.submit, SudokuApp.rejectedCount, hres]
              omega
  · refine ⟨by decide, by decide, by decide, by decide, by decide⟩
